import Mathlib

/-!
Verification development for the CAIXA auction-listing scraper
(`index.js`) and its WordPress sync script (`sync-wp.js`).

The JavaScript string/numeric pipeline is shallowly embedded:
JS numbers are modelled as exact rationals (`ℚ`), JS strings as
Lean `String`/`List Char`, absent values (`null`/`undefined`) as
`Option`.  Regular-expression matching used by the source is
modelled by explicit scanning functions with the same
leftmost-match semantics.
-/

namespace Scraper

/-- The character class of the JS regex `\s` (and of `String.trim`):
tab, LF, VT, FF, CR, space, NBSP, and the Unicode space separators. -/
def isJsSpace (c : Char) : Bool :=
  let n := c.toNat
  n = 0x9 || n = 0xA || n = 0xB || n = 0xC || n = 0xD || n = 0x20 ||
  n = 0xA0 || n = 0x1680 || (0x2000 ≤ n && n ≤ 0x200A) ||
  n = 0x2028 || n = 0x2029 || n = 0x202F || n = 0x205F || n = 0x3000 ||
  n = 0xFEFF

/-- ASCII upper/lower case pairs, used to model `toLowerCase` /
`toUpperCase` on the ASCII range (the only range reached after NFD
decomposition of the Latin letters this site produces). -/
def caseTable : List (Char × Char) :=
  [('A','a'), ('B','b'), ('C','c'), ('D','d'), ('E','e'), ('F','f'),
   ('G','g'), ('H','h'), ('I','i'), ('J','j'), ('K','k'), ('L','l'),
   ('M','m'), ('N','n'), ('O','o'), ('P','p'), ('Q','q'), ('R','r'),
   ('S','s'), ('T','t'), ('U','u'), ('V','v'), ('W','w'), ('X','x'),
   ('Y','y'), ('Z','z')]

/-- Model of `String.prototype.toLowerCase` for one character. -/
def lowerChar (c : Char) : Char :=
  ((caseTable.find? (fun p => p.1 == c)).map (fun p => p.2)).getD c

/-- Model of `String.prototype.toUpperCase` for one character. -/
def upperChar (c : Char) : Char :=
  ((caseTable.find? (fun p => p.2 == c)).map (fun p => p.1)).getD c

/-- Canonical (NFD) decompositions of the precomposed Latin-1 letters
that occur in the scraped Portuguese text: each entry is
(precomposed char, base letter, combining mark).  This models
`String.prototype.normalize("NFD")` restricted to the program's
character domain; characters outside the table are NFD-stable. -/
def decompTable : List (Char × Char × Char) :=
  [('À','A','̀'), ('Á','A','́'), ('Â','A','̂'),
   ('Ã','A','̃'), ('Ä','A','̈'),
   ('Ç','C','̧'),
   ('È','E','̀'), ('É','E','́'), ('Ê','E','̂'),
   ('Ë','E','̈'),
   ('Ì','I','̀'), ('Í','I','́'), ('Î','I','̂'),
   ('Ï','I','̈'),
   ('Ñ','N','̃'),
   ('Ò','O','̀'), ('Ó','O','́'), ('Ô','O','̂'),
   ('Õ','O','̃'), ('Ö','O','̈'),
   ('Ù','U','̀'), ('Ú','U','́'), ('Û','U','̂'),
   ('Ü','U','̈'),
   ('à','a','̀'), ('á','a','́'), ('â','a','̂'),
   ('ã','a','̃'), ('ä','a','̈'),
   ('ç','c','̧'),
   ('è','e','̀'), ('é','e','́'), ('ê','e','̂'),
   ('ë','e','̈'),
   ('ì','i','̀'), ('í','i','́'), ('î','i','̂'),
   ('ï','i','̈'),
   ('ñ','n','̃'),
   ('ò','o','̀'), ('ó','o','́'), ('ô','o','̂'),
   ('õ','o','̃'), ('ö','o','̈'),
   ('ù','u','̀'), ('ú','u','́'), ('û','u','̂'),
   ('ü','u','̈')]

def latin1Decomp (c : Char) : Option (Char × Char) :=
  (decompTable.find? (fun p => p.1 == c)).map (fun p => p.2)

/-- NFD decomposition of one character (identity off the table). -/
def nfdChar (c : Char) : List Char :=
  match latin1Decomp c with
  | some (b, m) => [b, m]
  | none => [c]

/-- The combining-mark range stripped by the source:
`replace(/[̀-ͯ]/g, "")`. -/
def isCombiningMark (c : Char) : Bool :=
  0x300 ≤ c.toNat && c.toNat ≤ 0x36F

/-- `replace(/\s+/g, " ")`: every maximal run of whitespace becomes a
single space. -/
def collapseAll : List Char → List Char
  | [] => []
  | [c] => if isJsSpace c then [' '] else [c]
  | c :: d :: t =>
    if isJsSpace c && isJsSpace d then collapseAll (d :: t)
    else (if isJsSpace c then ' ' else c) :: collapseAll (d :: t)

/-- `String.prototype.trim`: drop leading and trailing whitespace. -/
def trimChars (l : List Char) : List Char :=
  ((l.dropWhile isJsSpace).reverse.dropWhile isJsSpace).reverse

/-- JS `s.trim()`. -/
def jsTrim (s : String) : String := ⟨trimChars s.data⟩

/-- `norm` from `index.js` on a present string: NFD-decompose, strip
combining marks U+0300..U+036F, lowercase, collapse whitespace runs to
single spaces, trim. -/
def normStr (s : String) : String :=
  ⟨trimChars (collapseAll (((s.data.flatMap nfdChar).filter
      (fun c => !isCombiningMark c)).map lowerChar))⟩

/-- `norm` from `index.js`: `(s || "")` maps an absent value to `""`. -/
def norm (s : Option String) : String := normStr (s.getD "")

end Scraper

namespace Scraper

/-! ### Brazilian-currency parsing (`parseBRL`) -/

/-- JS `s.replace(a, b)` for one-character needles: only the first
occurrence is replaced. -/
def replaceFirstChar (a b : Char) : List Char → List Char
  | [] => []
  | c :: t => if c = a then b :: t else c :: replaceFirstChar a b t

def digitsToNat (l : List Char) : ℕ :=
  l.foldl (fun acc c => 10 * acc + (c.toNat - '0'.toNat)) 0

/-- The fractional digits after a leading decimal point, if any. -/
def fracDigits : List Char → List Char
  | '.' :: t => t.takeWhile Char.isDigit
  | _ => []

/-- Model of JS `parseFloat` restricted to the character set that can
reach it inside `parseBRL` (digits, `-`, `.`, `,`): an optional minus
sign, then a decimal-digit string with an optional fractional part;
the longest valid numeric prefix is parsed, `NaN` becomes `none`. -/
def jsParseFloat (cs : List Char) : Option ℚ :=
  let cs1 := if cs.head? = some '-' then cs.tail else cs
  let ip := cs1.takeWhile Char.isDigit
  let fp := fracDigits (cs1.drop ip.length)
  if ip.isEmpty && fp.isEmpty then none
  else
    let q : ℚ := (digitsToNat ip : ℚ) + (digitsToNat fp : ℚ) / 10 ^ fp.length
    some (if cs.head? = some '-' then -q else q)

/-- `parseBRL` from `index.js`: keep only `[\d,.-]`, delete every `.`
(thousands separator), turn the first `,` into `.`, `parseFloat`,
`NaN ↦ null`. -/
def parseBRL (s : String) : Option ℚ :=
  let only := s.data.filter (fun c => c.isDigit || c = ',' || c = '.' || c = '-')
  jsParseFloat (replaceFirstChar ',' '.' (only.filter (fun c => c ≠ '.')))

/-! ### `Number.prototype.toFixed(2)` and the money/discount fields -/

/-- `n.toFixed(2)`: sign split off, |n| rounded half-up to an integer
number of hundredths, rendered with exactly two decimals. -/
def toFixed2 (q : ℚ) : String :=
  let s := if q < 0 then "-" else ""
  let n : ℕ := (⌊|q| * 100 + 1 / 2⌋).toNat
  let r := n % 100
  s ++ toString (n / 100) ++ "." ++ (if r < 10 then "0" else "") ++ toString r

/-- `v.toFixed(2).replace(".", ",")`. -/
def toFixed2Comma (q : ℚ) : String :=
  ⟨replaceFirstChar '.' ',' (toFixed2 q).data⟩

/-- The four regex match results of the money paragraph
(`matchAval`, `matchMin1`, `matchMin2`, `matchMinGeneric`), each the
captured group `([\d\.,]+)` when the regex matched. -/
structure Matches where
  matchAval : Option String
  matchMin1 : Option String
  matchMin2 : Option String
  matchMinGeneric : Option String

/-- `valorAvaliacao`: capture of `matchAval`, trimmed, else `""`. -/
def valorAvaliacaoOf (m : Matches) : String :=
  match m.matchAval with
  | some s => jsTrim s
  | none => ""

def valorMinimo1Of (m : Matches) : String :=
  match m.matchMin1 with
  | some s => jsTrim s
  | none => ""

def valorMinimo2Of (m : Matches) : String :=
  match m.matchMin2 with
  | some s => jsTrim s
  | none => ""

/-- `valorMinimoGenerico` is only set when neither numbered minimum
matched (`if (!matchMin1 && !matchMin2 && matchMinGeneric)`). -/
def valorMinimoGenericoOf (m : Matches) : String :=
  match m.matchMin1, m.matchMin2, m.matchMinGeneric with
  | none, none, some s => jsTrim s
  | _, _, _ => ""

def avalQOf (m : Matches) : Option ℚ := parseBRL (valorAvaliacaoOf m)
def min1QOf (m : Matches) : Option ℚ := parseBRL (valorMinimo1Of m)
def min2QOf (m : Matches) : Option ℚ := parseBRL (valorMinimo2Of m)
def genQOf (m : Matches) : Option ℚ := parseBRL (valorMinimoGenericoOf m)

/-- `candidatos = [vMin1, vMin2, vMinGen].filter(v => v !== null)`. -/
def candidatosOf (m : Matches) : List ℚ :=
  [min1QOf m, min2QOf m, genQOf m].filterMap id

/-- `vMinGeral = Math.min(...candidatos)` when `candidatos` is
nonempty. -/
def vMinGeralOf (m : Matches) : Option ℚ :=
  match candidatosOf m with
  | [] => none
  | c :: cs => some (cs.foldl min c)

/-- `valorMinimoGeral = vMinGeral.toFixed(2).replace(".", ",")`. -/
def valorMinimoGeralStrOf (m : Matches) : String :=
  match vMinGeralOf m with
  | some v => toFixed2Comma v
  | none => ""

/-- The discount field: computed only when appraisal and overall
minimum parsed and the appraisal is positive; clamped below at 0,
two decimals, comma decimal separator, trailing percent sign. -/
def descontoOf (m : Matches) : String :=
  match avalQOf m, vMinGeralOf m with
  | some a, some mg =>
    if 0 < a then
      let d := (a - mg) / a * 100
      toFixed2Comma (if d < 0 then 0 else d) ++ "%"
    else ""
  | _, _ => ""

/-- The money block of the record produced by `extrairDetalhesImovel`
(raw captured strings plus the computed overall minimum and
discount). -/
structure ValoresOut where
  valorAvaliacao : String
  valorMinimo1 : String
  valorMinimo2 : String
  valorMinimoGenerico : String
  valorMinimoGeral : String
  descontoPercentual : String
deriving DecidableEq

/-- Lines 152-219 of `index.js`: the whole money-extraction block as a
function of the four regex results. -/
def extrairValores (m : Matches) : ValoresOut :=
  ⟨valorAvaliacaoOf m, valorMinimo1Of m, valorMinimo2Of m,
   valorMinimoGenericoOf m, valorMinimoGeralStrOf m, descontoOf m⟩

/-! ### Label-based attribute lookup (`getValueAfterLabel`) -/

/-- JS `String.prototype.split` with a one-character separator
(`","` / `":"` in the source): the list of chunks between separator
occurrences, empty chunks included. -/
def splitChar (sep : Char) : List Char → List (List Char)
  | [] => [[]]
  | c :: t =>
    let r := splitChar sep t
    if c = sep then [] :: r
    else
      match r with
      | h :: rest => (c :: h) :: rest
      | [] => [[c]]

/-- JS `row.split(sep)` producing strings. -/
def jsSplit (sep : Char) (s : String) : List String :=
  (splitChar sep s.data).map String.mk

/-- `n.startsWith(lab) || n.includes(lab)` on normalized text. -/
def labelMatches (lab : String) (t : String) : Bool :=
  let n := normStr t
  lab.data.isPrefixOf n.data || decide (lab.data <:+: n.data)

/-- `getValueAfterLabel` from `index.js`: find the first line whose
normalized form starts with / contains the normalized label, split it
on `":"` and return the second piece trimmed (`parts[1]` is falsy for
a missing or empty piece, giving `""`). -/
def getValueAfterLabel (arr : List String) (label : String) : String :=
  match arr.find? (fun t => labelMatches (normStr label) t) with
  | none => ""
  | some row =>
    match (jsSplit ':' row).get? 1 with
    | none => ""
    | some p => if p = "" then "" else jsTrim p

/-- Modelled from the spec: the claim's reading of the lookup —
"the substring of that line after the first matching separator,
trimmed" (everything after the first `:`, not just the next
colon-delimited field). -/
def afterFirstSepSpec (row : String) : String :=
  match jsSplit ':' row with
  | [] => ""
  | _ :: rest => jsTrim (String.intercalate ":" rest)

/-! ### Address decomposition (lines 411-457 of `index.js`) -/

/-- Try the literal pattern (case-insensitive) at the head of the
input, returning the remainder. -/
def dropLitCI : List Char → List Char → Option (List Char)
  | [], rest => some rest
  | _, [] => none
  | p :: ps, c :: cs => if lowerChar c = p then dropLitCI ps cs else none

/-- Try `/CEP:\s*([\d\-]+)/i` anchored at the head: returns
(capture, rest after the match). -/
def cepTryAt (cs : List Char) : Option (List Char × List Char) :=
  match dropLitCI "cep:".data cs with
  | none => none
  | some r1 =>
    let r2 := r1.dropWhile isJsSpace
    let ds := r2.takeWhile (fun c => c.isDigit || c = '-')
    if ds.isEmpty then none else some (ds, r2.drop ds.length)

/-- Leftmost match of `/CEP:\s*([\d\-]+)/i`: returns
(text before the match, capture, text after the match). -/
def cepScan : List Char → Option (List Char × List Char × List Char)
  | [] => none
  | c :: t =>
    match cepTryAt (c :: t) with
    | some (cap, rest) => some ([], cap, rest)
    | none =>
      match cepScan t with
      | some (b, cap, r) => some (c :: b, cap, r)
      | none => none

/-- `e.replace(/\s*,\s*$/, "")`: when the last non-whitespace character
is a comma, remove it together with the whitespace around it. -/
def stripTrailingCommaWs (l : List Char) : List Char :=
  match l.reverse.dropWhile isJsSpace with
  | ',' :: r => (r.dropWhile isJsSpace).reverse
  | _ => l

/-- `b.replace(/\-\s*$/i, "")`: when the last non-whitespace character
is a dash, remove it and the whitespace after it (whitespace before
the dash stays). -/
def stripTrailingDashWs (l : List Char) : List Char :=
  match l.reverse.dropWhile isJsSpace with
  | '-' :: r => r.reverse
  | _ => l

/-- Try `/N[º.]?\s*([\d]+)/i` anchored at the head: capture of the
digit group. -/
def numTryAt : List Char → Option (List Char)
  | [] => none
  | c :: t =>
    if c = 'N' || c = 'n' then
      let t2 :=
        match t with
        | d :: r => if d = 'º' || d = '.' then r else t
        | [] => t
      let t3 := t2.dropWhile isJsSpace
      let ds := t3.takeWhile Char.isDigit
      if ds.isEmpty then none else some ds
    else none

/-- Leftmost match of `/N[º.]?\s*([\d]+)/i`. -/
def numScan : List Char → Option (List Char)
  | [] => none
  | c :: t =>
    match numTryAt (c :: t) with
    | some ds => some ds
    | none => numScan t

/-- The tail part of `/^(.+?)\s*-\s*([A-Z]{2})$/i`:
`\s*-\s*` then exactly two ASCII letters at the end. -/
def ufTailCheck (cs : List Char) : Option (List Char) :=
  match cs.dropWhile isJsSpace with
  | '-' :: t2 =>
    match t2.dropWhile isJsSpace with
    | [a, b] =>
      if (('A' ≤ a && a ≤ 'Z') || ('a' ≤ a && a ≤ 'z')) &&
         (('A' ≤ b && b ≤ 'Z') || ('a' ≤ b && b ≤ 'z'))
      then some [a, b] else none
    | _ => none
  | _ => none

/-- `/^(.+?)\s*-\s*([A-Z]{2})$/i`: the lazy group takes the shortest
nonempty prefix whose remainder is `\s*-\s*[A-Za-z]{2}$`. -/
def cidadeUfGo (acc : List Char) : List Char → Option (List Char × List Char)
  | [] => none
  | c :: t =>
    match ufTailCheck t with
    | some uf => some ((c :: acc).reverse, uf)
    | none => cidadeUfGo (c :: acc) t

def cidadeUfSplit (cs : List Char) : Option (List Char × List Char) :=
  cidadeUfGo [] cs

/-- The address sub-fields extracted by the "Quebra do endereço"
block. -/
structure EnderecoParts where
  logradouro : String
  numero : String
  bairro : String
  cep : String
  cidade : String
  uf : String
deriving DecidableEq

/-- Lines 411-457 of `index.js`: strip and capture the `CEP:` token,
split the remainder on commas (trimmed, empties dropped), then read
street / house number / neighborhood / city-UF from the parts. -/
def quebraEndereco (enderecoCompleto : String) : EnderecoParts :=
  if enderecoCompleto = "" then ⟨"", "", "", "", "", ""⟩
  else
    let (cep, e) : String × List Char :=
      match cepScan enderecoCompleto.data with
      | some (before, cap, after) =>
        (jsTrim ⟨cap⟩, stripTrailingCommaWs (before ++ after))
      | none => ("", enderecoCompleto.data)
    let parts := (jsSplit ',' (String.mk e)).map jsTrim |>.filter (fun p => p ≠ "")
    let logradouro := parts.getD 0 ""
    let numero :=
      if parts.length ≥ 2 then
        match numScan (parts.getD 1 "").data with
        | some ds => jsTrim ⟨ds⟩
        | none => ""
      else ""
    let bairro :=
      if parts.length ≥ 3 then
        jsTrim ⟨stripTrailingDashWs (parts.getD 2 "").data⟩
      else ""
    let (cidade, uf) : String × String :=
      if parts.length ≥ 4 then
        let ultima := (parts.getLast?).getD ""
        match cidadeUfSplit ultima.data with
        | some (pre, u) => (jsTrim ⟨pre⟩, ⟨u.map upperChar⟩)
        | none => (ultima, "")
      else ("", "")
    ⟨logradouro, numero, bairro, cep, cidade, uf⟩

end Scraper

namespace Scraper

/-! ### Listing-URL collection (`coletarUrlsCidade`, lines 566-620) -/

/-- Try the pattern `detalhe_imovel(` + digits + `)` anchored at the
head; returns the digit capture. -/
def idTryAt (cs : List Char) : Option String :=
  match dropLitCI "detalhe_imovel(".data cs with
  | none => none
  | some r =>
    let ds := r.takeWhile Char.isDigit
    if ds.isEmpty then none
    else
      match r.drop ds.length with
      | ')' :: _ => some ⟨ds⟩
      | _ => none

/-- Leftmost match of `/detalhe_imovel\((\d+)\)/` over the `onclick`
attribute text. -/
def idScan : List Char → Option String
  | [] => none
  | c :: t =>
    match idTryAt (c :: t) with
    | some s => some s
    | none => idScan t

def extractId (onclick : String) : Option String := idScan onclick.data

/-- The fixed detail-page URL template. -/
def urlFromId (idImovel : String) : String :=
  "https://venda-imoveis.caixa.gov.br/sistema/detalhe-imovel.asp?hdnimovel="
    ++ idImovel

/-- `Set.prototype.add` with `Array.from` insertion order: append the
element only when it is not already present. -/
def insertSet (acc : List String) (x : String) : List String :=
  if x ∈ acc then acc else acc ++ [x]

/-- The identifiers found on one listing page (items whose `onclick`
lacks the pattern are silently skipped). -/
def pageIds (items : List String) : List String :=
  items.filterMap extractId

/-- The URLs pushed for one page. -/
def pageUrls (items : List String) : List String :=
  (pageIds items).map urlFromId

/-- `coletarUrlsCidade`: accumulate the synthesized URLs of every page
into a set, then return it as a list (insertion order).  A "page" is
the list of `onclick` attribute strings of its listing items. -/
def coletarUrlsCidade (pages : List (List String)) : List String :=
  pages.foldl (fun acc items => (pageUrls items).foldl insertSet acc) []

/-! ### XLSX export (`salvarComoXlsx`, lines 625-694) -/

/-- The fixed column schema. -/
def campos : List String :=
  ["_imoveis_codigo_imovel",
   "_imoveis_titulo",
   "_imoveis_valor_avaliacao",
   "_imoveis_valor_minimo_1_leilao",
   "_imoveis_valor_minimo_2_leilao",
   "_imoveis_valor_minimo_generico",
   "_imoveis_valor_minimo",
   "_imoveis_desconto_percentual",
   "_imoveis_desconto_pct",
   "_imoveis_tipo_imovel",
   "_imoveis_quartos",
   "_imoveis_garagem",
   "_imoveis_numero_imovel",
   "_imoveis_matricula",
   "_imoveis_comarca",
   "_imoveis_oficio",
   "_imoveis_inscricao_imobiliaria",
   "_imoveis_averbacao_leiloes",
   "_imoveis_area_total",
   "_imoveis_area_privativa",
   "_imoveis_area_terreno",
   "_imoveis_tipo_leilao",
   "_imoveis_edital",
   "_imoveis_leiloeiro",
   "_imoveis_numero_item",
   "_imoveis_data_leilao_1",
   "_imoveis_data_leilao_2",
   "_imoveis_endereco_completo",
   "_imoveis_endereco_logradouro",
   "_imoveis_endereco_numero",
   "_imoveis_endereco_bairro_texto",
   "_imoveis_endereco_cidade_texto",
   "_imoveis_endereco_estado_texto",
   "_imoveis_cep",
   "_imoveis_descricao",
   "_imoveis_formas_pagamento",
   "_imoveis_link_matricula",
   "_imoveis_link_edital",
   "_imoveis_imgs_lista",
   "_imoveis_estado",
   "_imoveis_cidade_codigo",
   "_imoveis_cidade",
   "_imoveis_bairro"]

/-- `value.replace(/\r?\n|\r/g, " ")`: each `\r\n` pair, lone `\n`,
or lone `\r` becomes one space. -/
def replNewlines : List Char → List Char
  | [] => []
  | c :: t =>
    if c = '\r' then
      match t with
      | d :: t2 => if d = '\n' then ' ' :: replNewlines t2 else ' ' :: replNewlines (d :: t2)
      | [] => [' ']
    else (if c = '\n' then ' ' else c) :: replNewlines t

mutual
/-- `replace(/\s{2,}/g, " ")`, first state: `pend` holds a single
whitespace character whose run length is still 1. -/
def collapse2Go (pend : Option Char) : List Char → List Char
  | [] =>
    match pend with
    | some w => [w]
    | none => []
  | c :: t =>
    match pend with
    | some w =>
      if isJsSpace c then ' ' :: collapse2Skip t
      else w :: c :: collapse2Go none t
    | none =>
      if isJsSpace c then collapse2Go (some c) t
      else c :: collapse2Go none t

/-- Second state: inside a run of length ≥ 2 whose single `' '` has
already been emitted; skip the remaining whitespace. -/
def collapse2Skip : List Char → List Char
  | [] => []
  | c :: t =>
    if isJsSpace c then collapse2Skip t
    else c :: collapse2Go none t
end

/-- `replace(/\s{2,}/g, " ")`: maximal whitespace runs of length ≥ 2
become one space; single whitespace characters are kept verbatim. -/
def collapse2 (l : List Char) : List Char := collapse2Go none l

/-- The per-cell sanitizer of `salvarComoXlsx` on a present string. -/
def sanitizeStr (s : String) : String :=
  ⟨trimChars (collapse2 (replNewlines s.data))⟩

/-- `sanitize`: `null`/`undefined` become `""`, everything else is
newline-collapsed, whitespace-collapsed and trimmed. -/
def sanitize (v : Option String) : String :=
  match v with
  | none => ""
  | some s => sanitizeStr s

/-- One output row: every schema column, in order, with the record's
value (possibly absent) sanitized. -/
def makeRow (det : String → Option String) : List (String × String) :=
  campos.map (fun campo => (campo, sanitize (det campo)))

/-- All rows handed to the sheet writer. -/
def rowsOf (detalhes : List (String → Option String)) :
    List (List (String × String)) :=
  detalhes.map makeRow

end Scraper

namespace Scraper

/-! ### The record literal of `extrairDetalhesImovel` (lines 501-553) -/

structure PropertyRecord where
  _imoveis_codigo_imovel : String
  _imoveis_titulo : String
  _imoveis_valor_avaliacao : String
  _imoveis_valor_minimo_1_leilao : String
  _imoveis_valor_minimo_2_leilao : String
  _imoveis_valor_minimo_generico : String
  _imoveis_valor_minimo : String
  _imoveis_desconto_percentual : String
  _imoveis_desconto_pct : String
  _imoveis_tipo_imovel : String
  _imoveis_quartos : String
  _imoveis_garagem : String
  _imoveis_numero_imovel : String
  _imoveis_matricula : String
  _imoveis_comarca : String
  _imoveis_oficio : String
  _imoveis_inscricao_imobiliaria : String
  _imoveis_averbacao_leiloes : String
  _imoveis_area_total : String
  _imoveis_area_privativa : String
  _imoveis_area_terreno : String
  _imoveis_tipo_leilao : String
  _imoveis_edital : String
  _imoveis_leiloeiro : String
  _imoveis_numero_item : String
  _imoveis_data_leilao_1 : String
  _imoveis_data_leilao_2 : String
  _imoveis_endereco_completo : String
  _imoveis_endereco_logradouro : String
  _imoveis_endereco_numero : String
  _imoveis_endereco_bairro_texto : String
  _imoveis_endereco_cidade_texto : String
  _imoveis_endereco_estado_texto : String
  _imoveis_cep : String
  _imoveis_descricao : String
  _imoveis_formas_pagamento : String
  _imoveis_link_matricula : String
  _imoveis_link_edital : String
  _imoveis_imgs_lista : String
  _imoveis_estado : String
  _imoveis_cidade_codigo : String
  _imoveis_cidade : String
  _imoveis_bairro : String

/-- The local variables of the page-evaluate closure that feed the
returned record literal (everything extracted before line 501 that is
not derived from `Matches` or from `enderecoCompleto`). -/
structure DetalheVars where
  ms : Matches
  codigoImovel : String
  tituloImovel : String
  tipoImovel : String
  quartos : String
  garagem : String
  numeroImovelStr : String
  matricula : String
  comarca : String
  oficio : String
  inscricaoImobiliaria : String
  averbacaoLeiloes : String
  areaTotal : String
  areaPrivativa : String
  areaTerreno : String
  tipoLeilao : String
  editalTexto : String
  leiloeiro : String
  numeroItem : String
  dataLeilao1 : String
  dataLeilao2 : String
  enderecoCompleto : String
  descricao : String
  formasPagamento : String
  linkMatricula : String
  linkEdital : String
  imgsLista : List String
  hdnEstado : Option String
  hdnCidade : Option String
  hdnBairro : Option String
  metaEstado : String
  metaCidadeCodigo : String
  metaCidadeNome : String

/-- `if (h && h.value) x = h.value.trim(); else if (fb) x = fb;` -/
def pickHidden (h : Option String) (fb : String) : String :=
  match h with
  | some s => if s = "" then fb else jsTrim s
  | none => fb

/-- Lines 479-553 of `index.js`: location-code fallbacks, address
decomposition, image join, and the returned record literal. -/
def montarRegistro (v : DetalheVars) : PropertyRecord :=
  let vals := extrairValores v.ms
  let e := quebraEndereco v.enderecoCompleto
  let estadoCod := pickHidden v.hdnEstado v.metaEstado
  let cidadeCod := pickHidden v.hdnCidade v.metaCidadeCodigo
  let bairroFinal := pickHidden v.hdnBairro e.bairro
  let cidadeNomeFinal :=
    if v.metaCidadeNome ≠ "" then v.metaCidadeNome else e.cidade
  { _imoveis_codigo_imovel := v.codigoImovel
    _imoveis_titulo := v.tituloImovel
    _imoveis_valor_avaliacao := vals.valorAvaliacao
    _imoveis_valor_minimo_1_leilao := vals.valorMinimo1
    _imoveis_valor_minimo_2_leilao := vals.valorMinimo2
    _imoveis_valor_minimo_generico := vals.valorMinimoGenerico
    _imoveis_valor_minimo := vals.valorMinimoGeral
    _imoveis_desconto_percentual := vals.descontoPercentual
    _imoveis_desconto_pct := vals.descontoPercentual
    _imoveis_tipo_imovel := v.tipoImovel
    _imoveis_quartos := v.quartos
    _imoveis_garagem := v.garagem
    _imoveis_numero_imovel := v.numeroImovelStr
    _imoveis_matricula := v.matricula
    _imoveis_comarca := v.comarca
    _imoveis_oficio := v.oficio
    _imoveis_inscricao_imobiliaria := v.inscricaoImobiliaria
    _imoveis_averbacao_leiloes := v.averbacaoLeiloes
    _imoveis_area_total := v.areaTotal
    _imoveis_area_privativa := v.areaPrivativa
    _imoveis_area_terreno := v.areaTerreno
    _imoveis_tipo_leilao := v.tipoLeilao
    _imoveis_edital := v.editalTexto
    _imoveis_leiloeiro := v.leiloeiro
    _imoveis_numero_item := v.numeroItem
    _imoveis_data_leilao_1 := v.dataLeilao1
    _imoveis_data_leilao_2 := v.dataLeilao2
    _imoveis_endereco_completo := v.enderecoCompleto
    _imoveis_endereco_logradouro := e.logradouro
    _imoveis_endereco_numero := e.numero
    _imoveis_endereco_bairro_texto := e.bairro
    _imoveis_endereco_cidade_texto := e.cidade
    _imoveis_endereco_estado_texto := e.uf
    _imoveis_cep := e.cep
    _imoveis_descricao := v.descricao
    _imoveis_formas_pagamento := v.formasPagamento
    _imoveis_link_matricula := v.linkMatricula
    _imoveis_link_edital := v.linkEdital
    _imoveis_imgs_lista := String.intercalate "|" v.imgsLista
    _imoveis_estado := estadoCod
    _imoveis_cidade_codigo := cidadeCod
    _imoveis_cidade := cidadeNomeFinal
    _imoveis_bairro := bairroFinal }

/-! ### The sync forwarder (`sync-wp.js`) -/

/-- The observable inputs of one `sync-wp.js` run: the two
environment variables, the directory listing, and the import
endpoint's response (status and body). -/
structure SyncInput where
  wpUrl : Option String
  wpToken : Option String
  files : List String
  respStatus : Nat
  respText : String

/-- `readdirSync(...).find(f => f.startsWith("urls_") &&
f.endsWith("_por_cidade.json"))`. -/
def findUrlsJson (files : List String) : Option String :=
  files.find? (fun f => f.startsWith "urls_" && f.endsWith "_por_cidade.json")

/-- What a run did: process exit code, the single POST it performed
(absolute URL and Authorization header) if any, and the response body
it surfaced as an error diagnostic. -/
structure SyncResult where
  exitCode : Nat
  request : Option (String × String)
  surfaced : Option String
deriving DecidableEq

/-- `sync-wp.js` as a function of its observable inputs: missing or
empty configuration and a missing index file exit 1 before any
request; otherwise exactly one authenticated POST is made, a non-2xx
response surfaces the body and exits 1, a 2xx response exits 0. -/
def syncWp (i : SyncInput) : SyncResult :=
  let u := i.wpUrl.getD ""
  let t := i.wpToken.getD ""
  if u = "" ∨ t = "" then ⟨1, none, none⟩
  else
    match findUrlsJson i.files with
    | none => ⟨1, none, none⟩
    | some _ =>
      let req := (u ++ "/wp-json/imoveis/v1/import", "Bearer " ++ t)
      if 200 ≤ i.respStatus ∧ i.respStatus ≤ 299 then ⟨0, some req, none⟩
      else ⟨1, some req, some i.respText⟩

end Scraper

namespace Scraper

/-! ### Helper lemmas -/

lemma takeWhile_isDigit_nil : ∀ {l : List Char},
    (∀ c ∈ l, c.isDigit = false) → l.takeWhile Char.isDigit = []
  | [], _ => rfl
  | c :: t, h => by
    simp [List.takeWhile_cons, h c (List.mem_cons_self c t)]

lemma fracDigits_eq_nil {m : List Char} (h : ∀ c ∈ m, c.isDigit = false) :
    fracDigits m = [] := by
  unfold fracDigits
  split
  · next t =>
    exact takeWhile_isDigit_nil (fun c hc => h c (List.mem_cons_of_mem _ hc))
  · rfl

lemma jsParseFloat_no_digits {l : List Char}
    (h : ∀ c ∈ l, c.isDigit = false) : jsParseFloat l = none := by
  have h1 : ∀ c ∈ (if l.head? = some '-' then l.tail else l),
      c.isDigit = false := by
    split
    · exact fun c hc => h c (List.mem_of_mem_tail hc)
    · exact h
  simp [jsParseFloat, takeWhile_isDigit_nil h1, fracDigits_eq_nil h1]

/-! ### C4 -/

/-- C4: Brazilian-locale currency parsing maps `"1.234,56"` to the
numeric value `1234.56` (period as thousands separator, comma as
decimal separator), and an input containing no digit at all parses to
`none` (`parseBRL` is a total function, so malformed input can never
crash — it simply yields no value). -/
theorem parseBRL_spec :
    parseBRL "1.234,56" = some (1234.56 : ℚ)
    ∧ ∀ s : String, (∀ c ∈ s.data, c.isDigit = false) → parseBRL s = none := by
  constructor
  · with_unfolding_all rfl
  · intro s h
    apply jsParseFloat_no_digits
    intro c hc
    -- characters survive filtering and the first-comma replacement
    have base : ∀ (m : List Char), (∀ c ∈ m, c.isDigit = false) →
        ∀ c ∈ replaceFirstChar ',' '.' m, c.isDigit = false := by
      intro m hm
      induction m with
      | nil => intro c hc; cases hc
      | cons a t ih =>
        intro c hc
        by_cases ha : a = ','
        · subst ha
          simp [replaceFirstChar] at hc
          rcases hc with rfl | hc
          · decide
          · exact hm c (List.mem_cons_of_mem _ hc)
        · simp [replaceFirstChar, ha] at hc
          rcases hc with rfl | hc
          · exact hm c (List.mem_cons_self _ _)
          · exact ih (fun d hd => hm d (List.mem_cons_of_mem _ hd)) c hc
    refine base _ (fun d hd => ?_) c hc
    have hd' := List.mem_of_mem_filter hd
    exact h d (List.mem_of_mem_filter hd')

/-- Witness for C4's universally quantified part at a concrete
malformed input. -/
theorem parseBRL_spec_witness : parseBRL "abc" = none :=
  parseBRL_spec.2 "abc" (by decide)

/-! ### C1 -/

lemma parseBRL_empty : parseBRL "" = none := rfl

lemma min1QOf_matchMin1 {m : Matches} {q : ℚ} (h : min1QOf m = some q) :
    m.matchMin1 ≠ none := by
  intro hn
  rw [min1QOf, valorMinimo1Of, hn] at h
  simp [parseBRL_empty] at h

lemma min2QOf_matchMin2 {m : Matches} {q : ℚ} (h : min2QOf m = some q) :
    m.matchMin2 ≠ none := by
  intro hn
  rw [min2QOf, valorMinimo2Of, hn] at h
  simp [parseBRL_empty] at h

lemma genericoOf_numbered {m : Matches}
    (h : m.matchMin1 ≠ none ∨ m.matchMin2 ≠ none) :
    valorMinimoGenericoOf m = "" := by
  unfold valorMinimoGenericoOf
  rcases hm1 : m.matchMin1 with _ | s1 <;> rcases hm2 : m.matchMin2 with _ | s2
  · rw [hm1, hm2] at h; simp at h
  · rcases hm3 : m.matchMinGeneric <;> rfl
  · rcases hm3 : m.matchMinGeneric <;> rfl
  · rcases hm3 : m.matchMinGeneric <;> rfl

lemma genQOf_numbered {m : Matches}
    (h : m.matchMin1 ≠ none ∨ m.matchMin2 ≠ none) : genQOf m = none := by
  rw [genQOf, genericoOf_numbered h, parseBRL_empty]

lemma foldl_min_le : ∀ (cs : List ℚ) (c : ℚ),
    cs.foldl min c ≤ c ∧ ∀ x ∈ cs, cs.foldl min c ≤ x
  | [], c => ⟨le_refl c, by simp⟩
  | d :: t, c => by
    obtain ⟨h1, h2⟩ := foldl_min_le t (min c d)
    refine ⟨le_trans h1 (min_le_left _ _), ?_⟩
    intro x hx
    rcases List.mem_cons.mp hx with rfl | hx1
    · exact le_trans h1 (min_le_right _ _)
    · exact h2 x hx1

lemma foldl_min_mem : ∀ (cs : List ℚ) (c : ℚ), cs.foldl min c ∈ c :: cs
  | [], _ => by simp
  | d :: t, c => by
    have h := foldl_min_mem t (min c d)
    simp only [List.foldl_cons]
    rcases List.mem_cons.mp h with h1 | h1
    · rcases min_choice c d with h2 | h2
      · exact List.mem_cons.mpr (Or.inl (h1.trans h2))
      · exact List.mem_cons.mpr
          (Or.inr (List.mem_cons.mpr (Or.inl (h1.trans h2))))
    · exact List.mem_cons.mpr (Or.inr (List.mem_cons.mpr (Or.inr h1)))

/-- C1: when both the appraisal and an overall minimum parse and the
appraisal is positive, the discount field is
`(appraisal - overallMinimum) / appraisal * 100`, clamped below at
zero, rendered with two decimals, comma decimal separator and a
trailing percent sign; when the appraisal is `0` or either value is
missing, the discount field is the empty string (no division is ever
performed in that case). -/
theorem descontoPercentual_formula (m : Matches) :
    (∀ a mn : ℚ, avalQOf m = some a → vMinGeralOf m = some mn → 0 < a →
      (extrairValores m).descontoPercentual =
        toFixed2Comma (max 0 ((a - mn) / a * 100)) ++ "%")
    ∧ ((avalQOf m = none ∨ avalQOf m = some 0 ∨ vMinGeralOf m = none) →
      (extrairValores m).descontoPercentual = "") := by
  constructor
  · intro a mn ha hmn hpos
    show descontoOf m = _
    unfold descontoOf
    rw [ha, hmn]
    simp only [hpos, if_true]
    congr 2
    rcases lt_or_le ((a - mn) / a * 100) 0 with h | h
    · simp [h, max_eq_left h.le]
    · simp [not_lt.mpr h, max_eq_right h]
  · intro h
    show descontoOf m = _
    unfold descontoOf
    rcases ha : avalQOf m with _ | a
    · rcases hv : vMinGeralOf m <;> rfl
    · rcases hv : vMinGeralOf m with _ | mg
      · rfl
      · have ha0 : a = 0 := by
          rcases h with h | h | h
          · rw [ha] at h; cases h
          · rw [ha] at h; exact Option.some_injective _ h
          · rw [hv] at h; cases h
        simp [ha0]

/-- Witness for C1: appraisal `100.000,00` and first-auction minimum
`80.000,00` give discount `"20,00%"`; appraisal `0` gives `""`. -/
theorem descontoPercentual_formula_witness :
    (extrairValores ⟨some "100.000,00", some "80.000,00", none, none⟩).descontoPercentual
      = "20,00%"
    ∧ (extrairValores ⟨some "0", some "80.000,00", none, none⟩).descontoPercentual
      = "" := by
  constructor
  · have h := (descontoPercentual_formula
        ⟨some "100.000,00", some "80.000,00", none, none⟩).1
      100000 80000 (by with_unfolding_all rfl) (by with_unfolding_all rfl)
      (by norm_num)
    rw [h]
    with_unfolding_all rfl
  · exact (descontoPercentual_formula _).2
      (Or.inr (Or.inl (by with_unfolding_all rfl)))

/-! ### C2 -/

/-- C2: when both numbered minimums parse, the overall minimum is
their minimum and the generic minimum-sale value is discarded; the
generic capture is kept only when neither numbered variant matched;
and the overall minimum is always the smallest of the parsed
minimum candidates. -/
theorem valorMinimoGeral_selection (m : Matches) :
    (∀ q1 q2 : ℚ, min1QOf m = some q1 → min2QOf m = some q2 →
      vMinGeralOf m = some (min q1 q2) ∧ valorMinimoGenericoOf m = "")
    ∧ ((m.matchMin1 ≠ none ∨ m.matchMin2 ≠ none) → genQOf m = none)
    ∧ (∀ q : ℚ, vMinGeralOf m = some q →
        q ∈ candidatosOf m ∧ ∀ x ∈ candidatosOf m, q ≤ x) := by
  refine ⟨?_, fun h => genQOf_numbered h, ?_⟩
  · intro q1 q2 h1 h2
    have hgenS := genericoOf_numbered (Or.inl (min1QOf_matchMin1 h1))
    have hgen := genQOf_numbered (Or.inl (min1QOf_matchMin1 h1))
    refine ⟨?_, hgenS⟩
    unfold vMinGeralOf
    have hc : candidatosOf m = [q1, q2] := by
      simp [candidatosOf, h1, h2, hgen]
    rw [hc]
    simp
  · intro q hq
    unfold vMinGeralOf at hq
    rcases hc : candidatosOf m with _ | ⟨c, cs⟩
    · rw [hc] at hq; cases hq
    · rw [hc] at hq
      have hq' : cs.foldl min c = q := by
        simpa using hq
      constructor
      · rw [← hq']
        exact foldl_min_mem cs c
      · intro x hx
        rcases List.mem_cons.mp hx with h1 | h1
        · rw [← hq', h1]
          exact (foldl_min_le cs c).1
        · rw [← hq']
          exact (foldl_min_le cs c).2 x h1

/-- Witness for C2: first minimum `90.000,00`, second `80.000,00`,
generic `10,00` → the generic value is ignored and the overall
minimum is `80000`. -/
theorem valorMinimoGeral_selection_witness :
    vMinGeralOf ⟨none, some "90.000,00", some "80.000,00", some "10,00"⟩
      = some 80000
    ∧ valorMinimoGenericoOf
        ⟨none, some "90.000,00", some "80.000,00", some "10,00"⟩ = "" := by
  have h := (valorMinimoGeral_selection
      ⟨none, some "90.000,00", some "80.000,00", some "10,00"⟩).1
    90000 80000 (by with_unfolding_all rfl) (by with_unfolding_all rfl)
  refine ⟨?_, h.2⟩
  rw [h.1]
  norm_num

/-! ### C3 -/

lemma string_ext {s t : String} (h : s.data = t.data) : s = t := by
  cases s; cases t; exact congrArg String.mk h

lemma urlFromId_inj : Function.Injective urlFromId := by
  intro a b h
  have h2 : (urlFromId a).data = (urlFromId b).data := congrArg String.data h
  rw [urlFromId, urlFromId, String.data_append, String.data_append] at h2
  exact string_ext (List.append_cancel_left h2)

lemma insertSet_mem {acc : List String} {x a : String} :
    a ∈ insertSet acc x ↔ a ∈ acc ∨ a = x := by
  unfold insertSet
  split
  · next h =>
    constructor
    · exact Or.inl
    · rintro (h1 | rfl)
      · exact h1
      · exact h
  · simp [List.mem_append]

lemma insertSet_nodup {acc : List String} {x : String} (h : acc.Nodup) :
    (insertSet acc x).Nodup := by
  unfold insertSet
  split
  · exact h
  · next hx => simp [List.nodup_append, h, hx]

lemma foldl_insertSet_nodup : ∀ (us acc : List String), acc.Nodup →
    (us.foldl insertSet acc).Nodup
  | [], _, h => h
  | _ :: t, acc, h => foldl_insertSet_nodup t _ (insertSet_nodup h)

lemma foldl_insertSet_mem : ∀ (us acc : List String) (a : String),
    a ∈ us.foldl insertSet acc ↔ a ∈ acc ∨ a ∈ us
  | [], acc, a => by simp
  | u :: t, acc, a => by
    rw [List.foldl_cons, foldl_insertSet_mem t _ a, insertSet_mem,
      List.mem_cons]
    tauto

lemma coletar_foldl_eq : ∀ (pages : List (List String)) (acc : List String),
    pages.foldl (fun acc items => (pageUrls items).foldl insertSet acc) acc
      = (pages.flatMap pageUrls).foldl insertSet acc
  | [], _ => rfl
  | p :: t, acc => by
    rw [List.foldl_cons, coletar_foldl_eq t, List.flatMap_cons,
      List.foldl_append]

lemma flatMap_pageUrls (pages : List (List String)) :
    pages.flatMap pageUrls = (pages.flatMap pageIds).map urlFromId := by
  induction pages with
  | nil => rfl
  | cons p t ih =>
    rw [List.flatMap_cons, List.flatMap_cons, List.map_append, ← ih]
    rfl

lemma toFinset_map_urls (l : List String) :
    (l.map urlFromId).toFinset = l.toFinset.image urlFromId := by
  ext a
  simp

/-- C3: the URL collector returns a duplicate-free list whose size is
the number of distinct identifiers gathered across all pages (not the
number of raw matches), and every element is the canonical detail-page
URL built from one of the gathered identifiers. -/
theorem coletarUrlsCidade_dedup (pages : List (List String)) :
    (coletarUrlsCidade pages).Nodup
    ∧ (coletarUrlsCidade pages).length = (pages.flatMap pageIds).toFinset.card
    ∧ ∀ u ∈ coletarUrlsCidade pages,
        ∃ i ∈ pages.flatMap pageIds, u = urlFromId i := by
  have hrew : coletarUrlsCidade pages
      = ((pages.flatMap pageIds).map urlFromId).foldl insertSet [] := by
    rw [coletarUrlsCidade, coletar_foldl_eq, flatMap_pageUrls]
  have hnd : (coletarUrlsCidade pages).Nodup := by
    rw [hrew]; exact foldl_insertSet_nodup _ _ List.nodup_nil
  have hmem : ∀ a, a ∈ coletarUrlsCidade pages ↔
      a ∈ (pages.flatMap pageIds).map urlFromId := by
    intro a
    rw [hrew, foldl_insertSet_mem]
    simp
  refine ⟨hnd, ?_, ?_⟩
  · have hfs : (coletarUrlsCidade pages).toFinset
        = ((pages.flatMap pageIds).map urlFromId).toFinset := by
      ext a
      rw [List.mem_toFinset, List.mem_toFinset, hmem]
    calc (coletarUrlsCidade pages).length
        = (coletarUrlsCidade pages).toFinset.card :=
          (List.toFinset_card_of_nodup hnd).symm
      _ = ((pages.flatMap pageIds).map urlFromId).toFinset.card := by
          rw [hfs]
      _ = ((pages.flatMap pageIds).toFinset.image urlFromId).card := by
          rw [toFinset_map_urls]
      _ = (pages.flatMap pageIds).toFinset.card :=
          Finset.card_image_of_injective _ urlFromId_inj
  · intro u hu
    have := (hmem u).mp hu
    rcases List.mem_map.mp this with ⟨i, hi, hie⟩
    exact ⟨i, hi, hie.symm⟩

/-- Witness for C3: two pages where identifier `11` repeats yield two
distinct URLs, and a member of the result comes from a gathered
identifier. -/
theorem coletarUrlsCidade_dedup_witness :
    (coletarUrlsCidade [["javascript:detalhe_imovel(11);", "x detalhe_imovel(22)y"],
      ["javascript:detalhe_imovel(11);"]]).length = 2
    ∧ ∃ i ∈ ([["javascript:detalhe_imovel(11);", "x detalhe_imovel(22)y"],
        ["javascript:detalhe_imovel(11);"]] : List (List String)).flatMap pageIds,
        urlFromId "11" = urlFromId i := by
  constructor
  · rw [(coletarUrlsCidade_dedup _).2.1]
    with_unfolding_all rfl
  · refine (coletarUrlsCidade_dedup _).2.2 (urlFromId "11") ?_
    with_unfolding_all decide

/-! ### C7 -/

lemma find?_first_index {p : String → Bool} : ∀ (l : List String) (i : ℕ)
    (hi : i < l.length), p (l.get ⟨i, hi⟩) = true →
    (∀ j (hj : j < i), p (l.get ⟨j, lt_trans hj hi⟩) = false) →
    l.find? p = some (l.get ⟨i, hi⟩)
  | [], i, hi, _, _ => absurd hi (by simp)
  | a :: t, 0, _, hp, _ => by
    simp only [List.get] at hp ⊢
    simp [List.find?_cons, hp]
  | a :: t, i + 1, hi, hp, hfirst => by
    have ha : p a = false := by
      have := hfirst 0 (Nat.succ_pos i)
      simpa using this
    have ih := find?_first_index t i (by simpa using Nat.lt_of_succ_lt_succ hi)
      (by simpa using hp)
      (fun j hj => by
        have := hfirst (j + 1) (Nat.succ_lt_succ hj)
        simpa using this)
    simp [List.find?_cons, ha, ih]

lemma jsTrim_empty : jsTrim "" = "" := rfl

/-- C7 counterexample: on the line `"Oficio: 1: A"` (matched by label
`"Oficio"`), the code returns the text between the first and second
colon (`"1"`), not the trimmed substring after the first separator
(`"1: A"`), so the claim as stated fails. -/
theorem getValueAfterLabel_counterexample :
    getValueAfterLabel ["Oficio: 1: A"] "Oficio" = "1"
    ∧ afterFirstSepSpec "Oficio: 1: A" = "1: A"
    ∧ ("1" : String) ≠ "1: A" := by
  refine ⟨?_, ?_, ?_⟩ <;> decide

/-- C7 (amended): for every list of lines and label, the lookup finds
the first line whose normalized form starts with or contains the
normalized label and returns the text of that line between the first
and second `:` (the whole remainder when the line has a single `:`,
empty when it has none), trimmed; when no line matches it returns the
empty string. -/
theorem getValueAfterLabel_first_match (arr : List String) (label : String) :
    ((∀ t ∈ arr, labelMatches (normStr label) t = false) →
      getValueAfterLabel arr label = "")
    ∧ (∀ i (hi : i < arr.length),
        labelMatches (normStr label) (arr.get ⟨i, hi⟩) = true →
        (∀ j (hj : j < i),
          labelMatches (normStr label) (arr.get ⟨j, lt_trans hj hi⟩) = false) →
        getValueAfterLabel arr label =
          jsTrim ((jsSplit ':' (arr.get ⟨i, hi⟩)).getD 1 "")) := by
  constructor
  · intro h
    unfold getValueAfterLabel
    rw [List.find?_eq_none.mpr (fun x hx => by simp [h x hx])]
  · intro i hi hp hfirst
    unfold getValueAfterLabel
    rw [find?_first_index arr i hi hp hfirst]
    show (match (jsSplit ':' (arr.get ⟨i, hi⟩)).get? 1 with
      | none => ""
      | some p => if p = "" then "" else jsTrim p) =
      jsTrim ((jsSplit ':' (arr.get ⟨i, hi⟩)).getD 1 "")
    rcases hg : (jsSplit ':' (arr.get ⟨i, hi⟩)).get? 1 with _ | piece
    · have : (jsSplit ':' (arr.get ⟨i, hi⟩)).getD 1 "" = "" := by
        rw [List.getD_eq_getD_get?, hg]
        rfl
      rw [this, jsTrim_empty]
    · have : (jsSplit ':' (arr.get ⟨i, hi⟩)).getD 1 "" = piece := by
        rw [List.getD_eq_getD_get?, hg]
        rfl
      rw [this]
      by_cases hp0 : piece = ""
      · simp [hp0, jsTrim_empty]
      · simp [hp0]

/-- Witness for C7's amended theorem: the first matching line of
`["sem rotulo", "Quartos: 2"]` for label `"Quartos"` is the second
one, and the value is `"2"`. -/
theorem getValueAfterLabel_first_match_witness :
    getValueAfterLabel ["sem rotulo", "Quartos: 2"] "Quartos" = "2" := by
  have h := (getValueAfterLabel_first_match ["sem rotulo", "Quartos: 2"]
      "Quartos").2 1 (by decide) (by decide)
    (by
      intro j hj
      have hj0 : j = 0 := by omega
      subst hj0
      show labelMatches (normStr "Quartos") "sem rotulo" = false
      decide)
  rw [h]
  decide

/-! ### C8 -/

/-- No two adjacent whitespace characters. -/
def wsPair (a b : Char) : Prop := (isJsSpace a && isJsSpace b) = false

/-- A string in the sanitized form produced by `salvarComoXlsx`:
no CR/LF characters, no run of two adjacent whitespace characters,
and no leading or trailing whitespace. -/
def Sanitized (s : String) : Prop :=
  ('\n' ∉ s.data ∧ '\r' ∉ s.data)
  ∧ List.Chain' wsPair s.data
  ∧ (∀ c, s.data.head? = some c → isJsSpace c = false)
  ∧ (∀ c, s.data.getLast? = some c → isJsSpace c = false)

lemma replNewlines_mem : ∀ (l : List Char) (a : Char), a ∈ replNewlines l →
    a = ' ' ∨ (a ∈ l ∧ a ≠ '\n' ∧ a ≠ '\r')
  | [], a, h => by simp [replNewlines] at h
  | c :: t, a, h => by
    rw [replNewlines.eq_def] at h
    simp only [] at h
    by_cases hc : c = '\r'
    · rw [if_pos hc] at h
      rcases t with _ | ⟨d, t2⟩
      · simp at h
        exact Or.inl h
      · have hred : (match d :: t2 with
            | d :: t2 =>
              if d = '\n' then ' ' :: replNewlines t2
              else ' ' :: replNewlines (d :: t2)
            | [] => ([' '] : List Char))
            = if d = '\n' then ' ' :: replNewlines t2
              else ' ' :: replNewlines (d :: t2) := rfl
        rw [hred] at h
        by_cases hd : d = '\n'
        · rw [if_pos hd] at h
          rcases List.mem_cons.mp h with rfl | h2
          · exact Or.inl rfl
          · rcases replNewlines_mem t2 a h2 with h3 | ⟨h3, h4, h5⟩
            · exact Or.inl h3
            · exact Or.inr ⟨by simp [h3], h4, h5⟩
        · rw [if_neg hd] at h
          rcases List.mem_cons.mp h with rfl | h2
          · exact Or.inl rfl
          · rcases replNewlines_mem (d :: t2) a h2 with h3 | ⟨h3, h4, h5⟩
            · exact Or.inl h3
            · exact Or.inr ⟨List.mem_cons_of_mem _ h3, h4, h5⟩
    · rw [if_neg hc] at h
      rcases List.mem_cons.mp h with h1 | h2
      · by_cases hn : c = '\n'
        · rw [if_pos hn] at h1
          exact Or.inl h1
        · rw [if_neg hn] at h1
          subst h1
          exact Or.inr ⟨List.mem_cons_self _ _, hn, hc⟩
      · rcases replNewlines_mem t a h2 with h3 | ⟨h3, h4, h5⟩
        · exact Or.inl h3
        · exact Or.inr ⟨List.mem_cons_of_mem _ h3, h4, h5⟩

lemma replNewlines_no_nl {l : List Char} :
    '\n' ∉ replNewlines l ∧ '\r' ∉ replNewlines l := by
  constructor <;> intro h <;>
    rcases replNewlines_mem l _ h with h1 | ⟨_, h2, h3⟩
  · exact absurd h1 (by decide)
  · exact h2 rfl
  · exact absurd h1 (by decide)
  · exact h3 rfl

lemma collapse2_mems : ∀ (n : ℕ) (l : List Char), l.length ≤ n →
    (∀ pend a, a ∈ collapse2Go pend l →
      a = ' ' ∨ a ∈ l ∨ ∃ w, pend = some w ∧ a = w)
    ∧ (∀ a, a ∈ collapse2Skip l → a = ' ' ∨ a ∈ l) := by
  intro n
  induction n with
  | zero =>
    intro l hl
    have : l = [] := List.length_eq_zero.mp (Nat.le_zero.mp hl)
    subst this
    constructor
    · intro pend a h
      rcases pend with _ | w
      · simp [collapse2Go] at h
      · simp [collapse2Go] at h
        exact Or.inr (Or.inr ⟨w, rfl, h⟩)
    · intro a h
      simp [collapse2Skip] at h
  | succ n ih =>
    intro l hl
    rcases l with _ | ⟨c, t⟩
    · exact (ih [] (Nat.zero_le n))
    · have ht : t.length ≤ n := Nat.lt_succ_iff.mp hl
      constructor
      · intro pend a h
        rcases pend with _ | w
        · by_cases hc : isJsSpace c = true
          · simp only [collapse2Go, hc, if_true] at h
            rcases (ih t ht).1 (some c) a h with h1 | h1 | ⟨w, hw, rfl⟩
            · exact Or.inl h1
            · exact Or.inr (Or.inl (List.mem_cons_of_mem _ h1))
            · obtain rfl : c = a := Option.some_injective _ hw
              exact Or.inr (Or.inl (List.mem_cons_self _ _))
          · simp only [collapse2Go, hc, if_false, Bool.false_eq_true] at h
            rcases List.mem_cons.mp h with rfl | h2
            · exact Or.inr (Or.inl (List.mem_cons_self _ _))
            · rcases (ih t ht).1 none a h2 with h1 | h1 | ⟨w, hw, rfl⟩
              · exact Or.inl h1
              · exact Or.inr (Or.inl (List.mem_cons_of_mem _ h1))
              · cases hw
        · by_cases hc : isJsSpace c = true
          · simp only [collapse2Go, hc, if_true] at h
            rcases List.mem_cons.mp h with rfl | h2
            · exact Or.inl rfl
            · rcases (ih t ht).2 a h2 with h1 | h1
              · exact Or.inl h1
              · exact Or.inr (Or.inl (List.mem_cons_of_mem _ h1))
          · simp only [collapse2Go, hc, if_false, Bool.false_eq_true] at h
            rcases List.mem_cons.mp h with rfl | h2
            · exact Or.inr (Or.inr ⟨a, rfl, rfl⟩)
            · rcases List.mem_cons.mp h2 with rfl | h3
              · exact Or.inr (Or.inl (List.mem_cons_self _ _))
              · rcases (ih t ht).1 none a h3 with h1 | h1 | ⟨w2, hw2, rfl⟩
                · exact Or.inl h1
                · exact Or.inr (Or.inl (List.mem_cons_of_mem _ h1))
                · cases hw2
      · intro a h
        by_cases hc : isJsSpace c = true
        · simp only [collapse2Skip, hc, if_true] at h
          rcases (ih t ht).2 a h with h1 | h1
          · exact Or.inl h1
          · exact Or.inr (List.mem_cons_of_mem _ h1)
        · simp only [collapse2Skip, hc, if_false, Bool.false_eq_true] at h
          rcases List.mem_cons.mp h with rfl | h2
          · exact Or.inr (List.mem_cons_self _ _)
          · rcases (ih t ht).1 none a h2 with h1 | h1 | ⟨w2, hw2, rfl⟩
            · exact Or.inl h1
            · exact Or.inr (List.mem_cons_of_mem _ h1)
            · cases hw2

lemma wsPair_of_right {a b : Char} (hb : isJsSpace b = false) : wsPair a b := by
  unfold wsPair
  simp [hb]

lemma wsPair_of_left {a b : Char} (ha : isJsSpace a = false) : wsPair a b := by
  unfold wsPair
  simp [ha]

lemma collapse2_chains : ∀ (n : ℕ) (l : List Char), l.length ≤ n →
    (∀ pend, List.Chain' wsPair (collapse2Go pend l))
    ∧ List.Chain' wsPair (collapse2Skip l)
    ∧ (∀ c, (collapse2Skip l).head? = some c → isJsSpace c = false) := by
  intro n
  induction n with
  | zero =>
    intro l hl
    have : l = [] := List.length_eq_zero.mp (Nat.le_zero.mp hl)
    subst this
    refine ⟨?_, by simp [collapse2Skip], by simp [collapse2Skip]⟩
    intro pend
    rcases pend with _ | w <;> simp [collapse2Go]
  | succ n ih =>
    intro l hl
    rcases l with _ | ⟨c, t⟩
    · exact ih [] (Nat.zero_le n)
    · have ht : t.length ≤ n := Nat.lt_succ_iff.mp hl
      have goNone : List.Chain' wsPair (collapse2Go none (c :: t)) := by
        by_cases hc : isJsSpace c = true
        · simp only [collapse2Go, hc, if_true]
          exact (ih t ht).1 (some c)
        · simp only [collapse2Go, hc, if_false, Bool.false_eq_true]
          rw [List.chain'_cons']
          exact ⟨fun b _ => wsPair_of_left (by simpa using hc),
            (ih t ht).1 none⟩
      refine ⟨?_, ?_, ?_⟩
      · intro pend
        rcases pend with _ | w
        · exact goNone
        · by_cases hc : isJsSpace c = true
          · simp only [collapse2Go, hc, if_true]
            rw [List.chain'_cons']
            exact ⟨fun b hb => wsPair_of_right ((ih t ht).2.2 b hb),
              (ih t ht).2.1⟩
          · simp only [collapse2Go, hc, if_false, Bool.false_eq_true]
            rw [List.chain'_cons']
            refine ⟨fun b hb => ?_, ?_⟩
            · simp only [List.head?_cons, Option.mem_def,
                Option.some.injEq] at hb
              subst hb
              exact wsPair_of_right (by simpa using hc)
            · rw [List.chain'_cons']
              exact ⟨fun b _ => wsPair_of_left (by simpa using hc),
                (ih t ht).1 none⟩
      · by_cases hc : isJsSpace c = true
        · simp only [collapse2Skip, hc, if_true]
          exact (ih t ht).2.1
        · simp only [collapse2Skip, hc, if_false, Bool.false_eq_true]
          rw [List.chain'_cons']
          exact ⟨fun b _ => wsPair_of_left (by simpa using hc),
            (ih t ht).1 none⟩
      · intro d hd
        by_cases hc : isJsSpace c = true
        · simp only [collapse2Skip, hc, if_true] at hd
          exact (ih t ht).2.2 d hd
        · simp only [collapse2Skip, hc, if_false, Bool.false_eq_true,
            List.head?_cons, Option.some.injEq] at hd
          subst hd
          simpa using hc

lemma mem_dropWhile {p : Char → Bool} : ∀ {l : List Char} {a : Char},
    a ∈ l.dropWhile p → a ∈ l
  | [], a, h => absurd h (by simp)
  | c :: t, a, h => by
    by_cases hc : p c
    · rw [List.dropWhile_cons, if_pos hc] at h
      exact List.mem_cons_of_mem _ (mem_dropWhile h)
    · rw [List.dropWhile_cons, if_neg hc] at h
      exact h

lemma chain'_dropWhile {R : Char → Char → Prop} {p : Char → Bool} :
    ∀ {l : List Char}, List.Chain' R l → List.Chain' R (l.dropWhile p)
  | [], h => h
  | c :: t, h => by
    by_cases hc : p c
    · rw [List.dropWhile_cons, if_pos hc]
      exact chain'_dropWhile h.tail
    · rw [List.dropWhile_cons, if_neg hc]
      exact h

lemma head?_dropWhile_not {p : Char → Bool} : ∀ {l : List Char} {c : Char},
    (l.dropWhile p).head? = some c → p c = false
  | [], c, h => by simp at h
  | a :: t, c, h => by
    by_cases ha : p a
    · rw [List.dropWhile_cons, if_pos ha] at h
      exact head?_dropWhile_not h
    · rw [List.dropWhile_cons, if_neg ha] at h
      simp only [List.head?_cons, Option.some.injEq] at h
      subst h
      simpa using ha

lemma getLast?_dropWhile {p : Char → Bool} : ∀ {l : List Char} {c : Char},
    (l.dropWhile p).getLast? = some c → l.getLast? = some c
  | [], c, h => by simp at h
  | a :: t, c, h => by
    by_cases ha : p a
    · rw [List.dropWhile_cons, if_pos ha] at h
      have ht := getLast?_dropWhile h
      rcases t with _ | ⟨b, t2⟩
      · simp at ht
      · rw [List.getLast?_cons_cons]
        exact ht
    · rw [List.dropWhile_cons, if_neg ha] at h
      exact h

lemma trimChars_mem {l : List Char} {a : Char} (h : a ∈ trimChars l) :
    a ∈ l := by
  unfold trimChars at h
  rw [List.mem_reverse] at h
  have h2 := mem_dropWhile h
  rw [List.mem_reverse] at h2
  exact mem_dropWhile h2

lemma wsPair_symm {a b : Char} (h : wsPair a b) : wsPair b a := by
  unfold wsPair at h ⊢
  rwa [Bool.and_comm]

lemma trimChars_chain {l : List Char} (h : List.Chain' wsPair l) :
    List.Chain' wsPair (trimChars l) := by
  unfold trimChars
  have h1 : List.Chain' wsPair (l.dropWhile isJsSpace) := chain'_dropWhile h
  have h2 : List.Chain' wsPair (l.dropWhile isJsSpace).reverse := by
    rw [List.chain'_reverse]
    exact h1.imp (fun a b hab => wsPair_symm hab)
  have h3 := chain'_dropWhile (p := isJsSpace) h2
  rw [List.chain'_reverse]
  exact h3.imp (fun a b hab => wsPair_symm hab)

lemma trimChars_head {l : List Char} {c : Char}
    (h : (trimChars l).head? = some c) : isJsSpace c = false := by
  unfold trimChars at h
  rw [List.head?_reverse] at h
  have h2 := getLast?_dropWhile h
  rw [List.getLast?_reverse] at h2
  exact head?_dropWhile_not h2

lemma trimChars_last {l : List Char} {c : Char}
    (h : (trimChars l).getLast? = some c) : isJsSpace c = false := by
  unfold trimChars at h
  rw [List.getLast?_reverse] at h
  exact head?_dropWhile_not h

lemma sanitized_empty : Sanitized "" := by
  refine ⟨⟨by simp, by simp⟩, by simp, by simp, by simp⟩

lemma sanitizeStr_sanitized (s : String) : Sanitized (sanitizeStr s) := by
  have hdata : (sanitizeStr s).data
      = trimChars (collapse2 (replNewlines s.data)) := rfl
  refine ⟨⟨?_, ?_⟩, ?_, ?_, ?_⟩
  · rw [hdata]
    intro h
    have h1 := trimChars_mem h
    rcases (collapse2_mems (replNewlines s.data).length _ le_rfl).1 none _ h1
      with h2 | h2 | ⟨w, hw, _⟩
    · exact absurd h2 (by decide)
    · exact (replNewlines_no_nl (l := s.data)).1 h2
    · cases hw
  · rw [hdata]
    intro h
    have h1 := trimChars_mem h
    rcases (collapse2_mems (replNewlines s.data).length _ le_rfl).1 none _ h1
      with h2 | h2 | ⟨w, hw, _⟩
    · exact absurd h2 (by decide)
    · exact (replNewlines_no_nl (l := s.data)).2 h2
    · cases hw
  · rw [hdata]
    exact trimChars_chain
      ((collapse2_chains (replNewlines s.data).length _ le_rfl).1 none)
  · rw [hdata]
    exact fun c hc => trimChars_head hc
  · rw [hdata]
    exact fun c hc => trimChars_last hc

/-- C8: every row handed to the sheet writer has exactly the fixed
column schema in the fixed order (no field absent), every cell value
is sanitized (no CR/LF, no adjacent whitespace pair, trimmed), and an
absent value becomes the empty string. -/
theorem salvarRows_schema (detalhes : List (String → Option String)) :
    (∀ row ∈ rowsOf detalhes,
      row.map Prod.fst = campos ∧ ∀ pr ∈ row, Sanitized pr.2)
    ∧ sanitize none = "" := by
  refine ⟨?_, rfl⟩
  intro row hrow
  rcases List.mem_map.mp hrow with ⟨det, _, rfl⟩
  constructor
  · unfold makeRow
    rw [List.map_map]
    exact List.map_id _
  · intro pr hpr
    rcases List.mem_map.mp hpr with ⟨campo, _, rfl⟩
    show Sanitized (sanitize (det campo))
    rcases det campo with _ | v
    · exact sanitized_empty
    · exact sanitizeStr_sanitized v

/-- Witness for C8: the single row for a record with every field
absent still carries the full schema. -/
theorem salvarRows_schema_witness :
    (makeRow (fun _ => none)).map Prod.fst = campos :=
  ((salvarRows_schema [fun _ => none]).1 (makeRow (fun _ => none))
    (by simp [rowsOf])).1

/-! ### C5 -/

lemma filter_eq_self_of {p : Char → Bool} : ∀ {l : List Char},
    (∀ c ∈ l, p c = true) → l.filter p = l
  | [], _ => rfl
  | c :: t, h => by
    rw [List.filter_cons, if_pos (h c (List.mem_cons_self _ _)),
      filter_eq_self_of (fun d hd => h d (List.mem_cons_of_mem _ hd))]

lemma map_eq_self_of {f : Char → Char} : ∀ {l : List Char},
    (∀ c ∈ l, f c = c) → l.map f = l
  | [], _ => rfl
  | c :: t, h => by
    rw [List.map_cons, h c (List.mem_cons_self _ _),
      map_eq_self_of (fun d hd => h d (List.mem_cons_of_mem _ hd))]

lemma flatMap_eq_self_of {f : Char → List Char} : ∀ {l : List Char},
    (∀ c ∈ l, f c = [c]) → l.flatMap f = l
  | [], _ => rfl
  | c :: t, h => by
    rw [List.flatMap_cons, h c (List.mem_cons_self _ _),
      flatMap_eq_self_of (fun d hd => h d (List.mem_cons_of_mem _ hd))]
    rfl

lemma lowerChar_cases (c : Char) :
    (∃ p ∈ caseTable, p.1 = c ∧ lowerChar c = p.2) ∨ lowerChar c = c := by
  rcases hf : caseTable.find? (fun p => p.1 == c) with _ | p
  · right
    unfold lowerChar
    rw [hf]
    rfl
  · left
    have hpred := List.find?_some hf
    refine ⟨p, List.mem_of_find?_eq_some hf, by simpa using hpred, ?_⟩
    unfold lowerChar
    rw [hf]
    rfl

lemma latin1Decomp_cases (c : Char) :
    (∃ p ∈ decompTable, p.1 = c ∧ latin1Decomp c = some p.2)
    ∨ latin1Decomp c = none := by
  rcases hf : decompTable.find? (fun p => p.1 == c) with _ | p
  · right
    unfold latin1Decomp
    rw [hf]
    rfl
  · left
    have hpred := List.find?_some hf
    refine ⟨p, List.mem_of_find?_eq_some hf, by simpa using hpred, ?_⟩
    unfold latin1Decomp
    rw [hf]
    rfl

set_option maxHeartbeats 2000000 in
lemma decomp_base_lower_stable :
    ∀ p ∈ decompTable, latin1Decomp (lowerChar p.2.1) = none := by decide

set_option maxHeartbeats 2000000 in
lemma decomp_mark_lower_stable :
    ∀ p ∈ decompTable, latin1Decomp (lowerChar p.2.2) = none := by decide

set_option maxHeartbeats 2000000 in
lemma case_lower_stable : ∀ p ∈ caseTable, latin1Decomp p.2 = none := by decide

set_option maxHeartbeats 2000000 in
lemma decomp_base_not_mark :
    ∀ p ∈ decompTable, isCombiningMark (lowerChar p.2.1) = false := by decide

set_option maxHeartbeats 2000000 in
lemma decomp_mark_is_mark :
    ∀ p ∈ decompTable, isCombiningMark p.2.2 = true := by decide

set_option maxHeartbeats 2000000 in
lemma case_lower_not_mark :
    ∀ p ∈ caseTable, isCombiningMark p.2 = false := by decide

set_option maxHeartbeats 2000000 in
lemma case_lower_not_key :
    ∀ p ∈ caseTable, ∀ q ∈ caseTable, (q.1 == p.2) = false := by decide

lemma nfd_stable_of_lower {c d : Char} (hd : d ∈ nfdChar c) :
    nfdChar (lowerChar d) = [lowerChar d] := by
  have key : latin1Decomp (lowerChar d) = none := by
    rcases latin1Decomp_cases c with ⟨p, hp, _, hsome⟩ | hnone
    · obtain ⟨k, b, mk⟩ := p
      rw [nfdChar, hsome] at hd
      rcases List.mem_cons.mp hd with rfl | hd2
      · exact decomp_base_lower_stable _ hp
      · rcases List.mem_cons.mp hd2 with rfl | hd3
        · exact decomp_mark_lower_stable _ hp
        · cases hd3
    · rw [nfdChar, hnone] at hd
      rcases List.mem_cons.mp hd with rfl | hd2
      · rcases lowerChar_cases d with ⟨p, hp, _, hld⟩ | hld
        · rw [hld]
          exact case_lower_stable _ hp
        · rw [hld]
          exact hnone
      · cases hd2
  rw [nfdChar, key]

set_option maxHeartbeats 2000000 in
lemma mark_lower_of {c d : Char} (hd : d ∈ nfdChar c)
    (hm : isCombiningMark d = false) :
    isCombiningMark (lowerChar d) = false := by
  rcases latin1Decomp_cases c with ⟨p, hp, _, hsome⟩ | hnone
  · obtain ⟨k, b, mk⟩ := p
    rw [nfdChar, hsome] at hd
    rcases List.mem_cons.mp hd with rfl | hd2
    · exact decomp_base_not_mark _ hp
    · rcases List.mem_cons.mp hd2 with rfl | hd3
      · exact absurd hm (by simp [decomp_mark_is_mark _ hp])
      · cases hd3
  · rw [nfdChar, hnone] at hd
    rcases List.mem_cons.mp hd with rfl | hd2
    · rcases lowerChar_cases d with ⟨p, hp, _, hld⟩ | hld
      · rw [hld]
        exact case_lower_not_mark _ hp
      · rw [hld]
        exact hm
    · cases hd2

lemma lowerChar_idem (d : Char) : lowerChar (lowerChar d) = lowerChar d := by
  rcases lowerChar_cases d with ⟨p, hp, _, hld⟩ | hld
  · rw [hld]
    unfold lowerChar
    rw [List.find?_eq_none.mpr ?_]
    · rfl
    · intro q hq
      simp [case_lower_not_key _ hp _ hq]
  · rw [hld, hld]

lemma collapseAll_mem : ∀ (l : List Char) (a : Char),
    a ∈ collapseAll l → a = ' ' ∨ a ∈ l
  | [], a, h => by simp [collapseAll] at h
  | [c], a, h => by
    by_cases hc : isJsSpace c = true
    · simp [collapseAll, hc] at h
      exact Or.inl h
    · simp [collapseAll, hc] at h
      exact Or.inr (by simp [h])
  | c :: d :: t, a, h => by
    simp only [collapseAll] at h
    by_cases hcd : (isJsSpace c && isJsSpace d) = true
    · rw [if_pos hcd] at h
      rcases collapseAll_mem (d :: t) a h with h1 | h1
      · exact Or.inl h1
      · exact Or.inr (List.mem_cons_of_mem _ h1)
    · rw [if_neg hcd] at h
      rcases List.mem_cons.mp h with h1 | h1
      · by_cases hc : isJsSpace c = true
        · rw [if_pos hc] at h1
          exact Or.inl h1
        · rw [if_neg hc] at h1
          subst h1
          exact Or.inr (List.mem_cons_self _ _)
      · rcases collapseAll_mem (d :: t) a h1 with h2 | h2
        · exact Or.inl h2
        · exact Or.inr (List.mem_cons_of_mem _ h2)

lemma collapseAll_ws_space : ∀ (l : List Char) (a : Char),
    a ∈ collapseAll l → isJsSpace a = true → a = ' '
  | [], a, h, _ => by simp [collapseAll] at h
  | [c], a, h, hs => by
    by_cases hc : isJsSpace c = true
    · simp [collapseAll, hc] at h
      exact h
    · simp [collapseAll, hc] at h
      subst h
      exact absurd hs (by simp [hc])
  | c :: d :: t, a, h, hs => by
    simp only [collapseAll] at h
    by_cases hcd : (isJsSpace c && isJsSpace d) = true
    · rw [if_pos hcd] at h
      exact collapseAll_ws_space (d :: t) a h hs
    · rw [if_neg hcd] at h
      rcases List.mem_cons.mp h with h1 | h1
      · by_cases hc : isJsSpace c = true
        · rw [if_pos hc] at h1
          exact h1
        · rw [if_neg hc] at h1
          subst h1
          exact absurd hs (by simp [hc])
      · exact collapseAll_ws_space (d :: t) a h1 hs

lemma collapseAll_head {d : Char} (t : List Char)
    (hd : isJsSpace d = false) : (collapseAll (d :: t)).head? = some d := by
  rcases t with _ | ⟨e, t2⟩
  · simp [collapseAll, hd]
  · have hcd : (isJsSpace d && isJsSpace e) = false := by simp [hd]
    simp only [collapseAll, hcd]
    simp [hd]

lemma collapseAll_chain : ∀ (l : List Char),
    List.Chain' wsPair (collapseAll l)
  | [] => by simp [collapseAll]
  | [c] => by
    by_cases hc : isJsSpace c = true <;> simp [collapseAll, hc]
  | c :: d :: t => by
    simp only [collapseAll]
    by_cases hcd : (isJsSpace c && isJsSpace d) = true
    · rw [if_pos hcd]
      exact collapseAll_chain (d :: t)
    · rw [if_neg hcd]
      rw [List.chain'_cons']
      refine ⟨?_, collapseAll_chain (d :: t)⟩
      intro b hb
      by_cases hc : isJsSpace c = true
      · have hd : isJsSpace d = false := by
          by_contra hdd
          have hdt : isJsSpace d = true := by simpa using hdd
          exact hcd (by simp [hc, hdt])
        rw [collapseAll_head t hd] at hb
        simp only [Option.mem_def, Option.some.injEq] at hb
        subst hb
        rw [if_pos hc]
        exact wsPair_of_right hd
      · rw [if_neg hc]
        exact wsPair_of_left (by simpa using hc)

lemma collapseAll_fix : ∀ (l : List Char), List.Chain' wsPair l →
    (∀ c ∈ l, isJsSpace c = true → c = ' ') → collapseAll l = l
  | [], _, _ => rfl
  | [c], _, hE => by
    by_cases hc : isJsSpace c = true
    · have hce := hE c (List.mem_cons_self _ _) hc
      simp [collapseAll, hc, hce]
    · simp [collapseAll, hc]
  | c :: d :: t, hD, hE => by
    have hcd : (isJsSpace c && isJsSpace d) = false := by
      have := List.chain'_cons.mp hD
      unfold wsPair at this
      exact this.1
    simp only [collapseAll, hcd, Bool.false_eq_true, if_false]
    rw [collapseAll_fix (d :: t) (List.chain'_cons.mp hD).2
      (fun e he hs => hE e (List.mem_cons_of_mem _ he) hs)]
    by_cases hc : isJsSpace c = true
    · rw [if_pos hc, (hE c (List.mem_cons_self _ _) hc)]
    · rw [if_neg hc]

lemma dropWhile_eq_self_of_head {p : Char → Bool} {l : List Char}
    (h : ∀ c, l.head? = some c → p c = false) : l.dropWhile p = l := by
  rcases l with _ | ⟨a, t⟩
  · rfl
  · rw [List.dropWhile_cons, if_neg (by simp [h a rfl])]

lemma trimChars_fix {l : List Char}
    (h1 : ∀ c, l.head? = some c → isJsSpace c = false)
    (h2 : ∀ c, l.getLast? = some c → isJsSpace c = false) :
    trimChars l = l := by
  unfold trimChars
  rw [dropWhile_eq_self_of_head h1]
  rw [dropWhile_eq_self_of_head (fun c hc => h2 c (by rwa [List.head?_reverse] at hc))]
  exact List.reverse_reverse l

lemma normStr_mem {x : String} {a : Char} (ha : a ∈ (normStr x).data) :
    a = ' ' ∨ ∃ c d, c ∈ x.data ∧ d ∈ nfdChar c ∧
      isCombiningMark d = false ∧ a = lowerChar d := by
  have h1 : a ∈ collapseAll (((x.data.flatMap nfdChar).filter
      (fun c => !isCombiningMark c)).map lowerChar) := trimChars_mem ha
  rcases collapseAll_mem _ _ h1 with h2 | h2
  · exact Or.inl h2
  · rcases List.mem_map.mp h2 with ⟨d, hd, rfl⟩
    have hd2 := List.mem_filter.mp hd
    rcases List.mem_flatMap.mp hd2.1 with ⟨c, hc, hdc⟩
    exact Or.inr ⟨c, d, hc, hdc, by simpa using hd2.2, rfl⟩

lemma normStr_invA {x : String} {a : Char} (ha : a ∈ (normStr x).data) :
    nfdChar a = [a] := by
  rcases normStr_mem ha with rfl | ⟨c, d, _, hdc, _, rfl⟩
  · decide
  · exact nfd_stable_of_lower hdc

lemma normStr_invB {x : String} {a : Char} (ha : a ∈ (normStr x).data) :
    isCombiningMark a = false := by
  rcases normStr_mem ha with rfl | ⟨c, d, _, hdc, hm, rfl⟩
  · decide
  · exact mark_lower_of hdc hm

lemma normStr_invC {x : String} {a : Char} (ha : a ∈ (normStr x).data) :
    lowerChar a = a := by
  rcases normStr_mem ha with rfl | ⟨c, d, _, _, _, rfl⟩
  · decide
  · exact lowerChar_idem d

lemma normStr_chain (x : String) : List.Chain' wsPair (normStr x).data :=
  trimChars_chain (collapseAll_chain _)

lemma normStr_ws_space {x : String} {a : Char} (ha : a ∈ (normStr x).data)
    (hs : isJsSpace a = true) : a = ' ' :=
  collapseAll_ws_space _ _ (trimChars_mem ha) hs

/-- C5: the text normalizer is total (absent input yields the empty
string), idempotent on every string, and identifies accent-bearing
and accent-free variants: both `"Área Total"` and `"area total"`
normalize to `"area total"`. -/
theorem norm_contract :
    norm none = ""
    ∧ (∀ s : String, normStr (normStr s) = normStr s)
    ∧ normStr "Área Total" = "area total"
    ∧ normStr "area total" = "area total" := by
  refine ⟨rfl, ?_, by decide, by decide⟩
  intro s
  have e1 : (normStr s).data.flatMap nfdChar = (normStr s).data :=
    flatMap_eq_self_of (fun c hc => normStr_invA hc)
  have e2 : (normStr s).data.filter (fun c => !isCombiningMark c)
      = (normStr s).data :=
    filter_eq_self_of (fun c hc => by simp [normStr_invB hc])
  have e3 : (normStr s).data.map lowerChar = (normStr s).data :=
    map_eq_self_of (fun c hc => normStr_invC hc)
  have e4 : collapseAll (normStr s).data = (normStr s).data :=
    collapseAll_fix _ (normStr_chain s)
      (fun c hc hs => normStr_ws_space hc hs)
  have e5 : trimChars (normStr s).data = (normStr s).data :=
    trimChars_fix (fun c hc => trimChars_head hc)
      (fun c hc => trimChars_last hc)
  show (⟨trimChars (collapseAll ((((normStr s).data.flatMap nfdChar).filter
      (fun c => !isCombiningMark c)).map lowerChar))⟩ : String) = normStr s
  rw [e1, e2, e3, e4, e5]

/-! ### C10 -/

/-- C10: in every record built by the detail extractor, the two
discount fields `_imoveis_desconto_percentual` and
`_imoveis_desconto_pct` are equal — both are assigned the same
computed discount string. -/
theorem montarRegistro_descontos_iguais (v : DetalheVars) :
    (montarRegistro v)._imoveis_desconto_percentual =
      (montarRegistro v)._imoveis_desconto_pct := rfl

/-! ### C9 -/

/-- C9: the sync forwarder exits non-zero exactly when configuration
is missing/empty, no `urls_*_por_cidade.json` file exists, or the
response status is not 2xx; on success it has performed exactly one
POST to `{WP_URL}/wp-json/imoveis/v1/import` with the bearer header;
on a non-2xx response the raw body is surfaced. -/
theorem syncWp_exit_semantics (i : SyncInput) :
    ((syncWp i).exitCode ≠ 0 ↔
      (i.wpUrl.getD "" = "" ∨ i.wpToken.getD "" = "" ∨
        findUrlsJson i.files = none ∨
        ¬(200 ≤ i.respStatus ∧ i.respStatus ≤ 299)))
    ∧ ((syncWp i).exitCode = 0 →
        (syncWp i).request =
          some (i.wpUrl.getD "" ++ "/wp-json/imoveis/v1/import",
                "Bearer " ++ i.wpToken.getD ""))
    ∧ (i.wpUrl.getD "" ≠ "" → i.wpToken.getD "" ≠ "" →
        findUrlsJson i.files ≠ none →
        ¬(200 ≤ i.respStatus ∧ i.respStatus ≤ 299) →
        (syncWp i).surfaced = some i.respText) := by
  by_cases hu : i.wpUrl.getD "" = ""
  · simp [syncWp, hu]
  · by_cases ht : i.wpToken.getD "" = ""
    · simp [syncWp, hu, ht]
    · rcases hf : findUrlsJson i.files with _ | f
      · simp [syncWp, hu, ht, hf]
      · by_cases hs : 200 ≤ i.respStatus ∧ i.respStatus ≤ 299
        · simp [syncWp, hu, ht, hf, hs]
        · simp [syncWp, hu, ht, hf, hs]

/-- Witness for C9 at a concrete input: a missing token makes the run
exit 1 with no request. -/
theorem syncWp_exit_semantics_witness :
    (syncWp ⟨some "https://example.org", none,
      ["urls_ro_por_cidade.json"], 200, "ok"⟩).exitCode ≠ 0 :=
  (syncWp_exit_semantics _).1.mpr (Or.inr (Or.inl rfl))

/-! ### C6 -/

/-- C6: address decomposition of
`"Rua A, Nº 123, Bairro B, CEP: 12345-000, Cidade C - RO"` yields
street `"Rua A"`, number `"123"`, neighborhood `"Bairro B"`, postal
code `"12345-000"`, city `"Cidade C"` and state `"RO"`. -/
theorem quebraEndereco_exemplo :
    quebraEndereco "Rua A, Nº 123, Bairro B, CEP: 12345-000, Cidade C - RO" =
      ⟨"Rua A", "123", "Bairro B", "12345-000", "Cidade C", "RO"⟩ := by
  with_unfolding_all rfl

end Scraper
